import Mathlib

/-!
Verification of the DimensionalGen core (src/services/excelService.ts) against
its natural-language specification.

JavaScript numbers are embedded as exact rationals (ℚ); `Math.random()` draws
are an explicit stream `rand : ℕ → ℚ` of values consumed in call order, and
each fallible parser returns an `Option`.  Strings are Lean `String`s and the
regular expressions of the source are embedded as explicit character-list
matchers that follow the anchoring and greediness of the originals.
-/

/-- `Math.round` of JS: round half toward positive infinity. -/
def jsRound (y : ℚ) : ℤ := ⌊y + 1 / 2⌋

/-- The integer selected by `Number.prototype.toFixed`: the string is produced
from `|x|`, rounding half up there, with the sign prepended — so as a single
integer the rounding is half away from zero. -/
def jsRoundAway (y : ℚ) : ℤ := if y < 0 then -⌊-y + 1 / 2⌋ else ⌊y + 1 / 2⌋

/-- Value of `parseFloat(x.toFixed(p))`: `x` rounded (half away from zero) to
`p` decimal places. -/
def toFixed (p : ℕ) (x : ℚ) : ℚ := (jsRoundAway (x * 10 ^ p) : ℚ) / 10 ^ p

/-- `randomizeInSpec` (excelService.ts lines 87–102).  `r` is the single
`Math.random()` draw the call consumes. -/
def randomizeInSpec (mn mx : ℚ) (precision : ℕ) (r : ℚ) : ℚ :=
  let tolerance := mx - mn
  if tolerance ≤ 0 then mn
  else
    let safeMin := mn + tolerance * (1 / 20)
    let safeMax := mx - tolerance * (1 / 20)
    if safeMax ≤ safeMin then toFixed precision (r * (mx - mn) + mn)
    else toFixed precision (r * (safeMax - safeMin) + safeMin)

/-- One candidate of the `randomizeOutSpec` loop: from the draw `r`, the small
integer shift `Math.floor(r * 7) - 3` (with `0` bumped to `1`), scaled by
`step` and added to the original; non-angular candidates are re-rounded. -/
def outSpecCandidate (orig : ℚ) (precision : ℕ) (isAngle : Bool) (step r : ℚ) : ℚ :=
  let randInt0 : ℤ := ⌊r * 7⌋ - 3
  let randInt : ℤ := if randInt0 = 0 then 1 else randInt0
  let candidate := orig + (randInt : ℚ) * step
  if isAngle then candidate else toFixed precision candidate

/-- The acceptance test of the `randomizeOutSpec` loop:
`isStillOut && (directionPreserved || attempts > 20) && candidate !== originalValue`. -/
def outSpecAccepts (orig mn mx : ℚ) (attempts : ℕ) (c : ℚ) : Prop :=
  (mx < c ∨ c < mn) ∧ ((mx < orig ∧ mx < c) ∨ (orig < mn ∧ c < mn) ∨ 20 < attempts) ∧ c ≠ orig

instance (orig mn mx : ℚ) (attempts : ℕ) (c : ℚ) :
    Decidable (outSpecAccepts orig mn mx attempts c) := by
  unfold outSpecAccepts; infer_instance

/-- The bounded `while (attempts < 50)` loop of `randomizeOutSpec`, with the
fuel `50 - attempts` made explicit.  The draw of attempt `k` is `rand (i0 + k)`
where `i0` is the stream position on entry.  Returns the value together with
the value of `attempts` when the loop exits (50 when no attempt accepts). -/
def randOutAux (rand : ℕ → ℚ) (i0 : ℕ) (orig mn mx : ℚ) (precision : ℕ)
    (isAngle : Bool) (step : ℚ) : ℕ → ℕ → ℚ × ℕ
  | attempts, 0 => (orig, attempts)
  | attempts, fuel + 1 =>
    let c := outSpecCandidate orig precision isAngle step (rand (i0 + attempts))
    if outSpecAccepts orig mn mx attempts c then (c, attempts)
    else randOutAux rand i0 orig mn mx precision isAngle step (attempts + 1) fuel

/-- `randomizeOutSpec` (excelService.ts lines 104–146).  The second component
records the attempt counter at loop exit (ghost instrumentation; the source
returns only the value). -/
def randomizeOutSpec (rand : ℕ → ℚ) (i0 : ℕ) (orig mn mx : ℚ) (precision : ℕ)
    (isAngle : Bool) : ℚ × ℕ :=
  let step : ℚ := if isAngle then 1 / 60 else 1 / 10 ^ precision
  randOutAux rand i0 orig mn mx precision isAngle step 0 50

/-! ### Character classes and string helpers -/

/-- `\d` of a JS regex: the characters `0`–`9`. -/
def isDigitChar (c : Char) : Bool := 48 ≤ c.toNat && c.toNat ≤ 57

/-- Whitespace as JS `\s` / `trim` / `parseFloat` treat it (the ASCII cases;
the exotic Unicode space code points never occur in this development). -/
def isJsWhitespace (c : Char) : Bool :=
  c.toNat = 32 || c.toNat = 9 || c.toNat = 10 || c.toNat = 13 || c.toNat = 11 || c.toNat = 12

/-- The degree glyph `°` (U+00B0). -/
def degChar : Char := Char.ofNat 176

/-- The minute mark character (U+0027). -/
def quoteChar : Char := Char.ofNat 39

/-- The character class `[°\s]` used by the angle regexes. -/
def isDmsSep (c : Char) : Bool := c.toNat = 176 || isJsWhitespace c

/-- `String.prototype.trim`. -/
def jsTrim (cs : List Char) : List Char :=
  ((cs.dropWhile isJsWhitespace).reverse.dropWhile isJsWhitespace).reverse

/-- ASCII case folding, as `toLowerCase` acts on the letters that matter here. -/
def jsToLower (c : Char) : Char :=
  if 65 ≤ c.toNat ∧ c.toNat ≤ 90 then Char.ofNat (c.toNat + 32) else c

/-- Split a leading `-` sign (the `-?` of the regexes). -/
def splitSign (cs : List Char) : Bool × List Char :=
  match cs with
  | c :: t => if c = '-' then (true, t) else (false, cs)
  | [] => (false, cs)

/-- Split a leading `+` or `-` sign, as `parseFloat` does. -/
def splitSignPM (cs : List Char) : Bool × List Char :=
  match cs with
  | c :: t => if c = '-' then (true, t) else if c = '+' then (false, t) else (false, cs)
  | [] => (false, cs)

/-- Numeric value of a digit run (most significant first). -/
def digitsVal (cs : List Char) : ℕ := cs.foldl (fun a c => 10 * a + (c.toNat - 48)) 0

/-- The decimal digit character for `n < 10`. -/
def digitChar (n : ℕ) : Char := Char.ofNat (48 + n)

/-- Decimal digits of a natural number, fuel-indexed so that the kernel can
evaluate it (the fuel `n + 1` always suffices). -/
def natDigitsAux : ℕ → ℕ → List Char
  | 0, _ => []
  | fuel + 1, n =>
    if n < 10 then [digitChar n]
    else natDigitsAux fuel (n / 10) ++ [digitChar (n % 10)]

/-- `n.toString()` for a natural number. -/
def natDigits (n : ℕ) : List Char := natDigitsAux (n + 1) n

/-- `padStart` to width `k` with zero characters. -/
def padStartK (k : ℕ) (cs : List Char) : List Char :=
  if cs.length < k then List.replicate (k - cs.length) '0' ++ cs else cs

/-- Replace the first occurrence of character `a` by `b`
(JS `replace` with a string pattern). -/
def replaceFirst (a b : Char) : List Char → List Char
  | [] => []
  | c :: t => if c = a then b :: t else c :: replaceFirst a b t

/-! ### Numeric parser (`parseNumber`) -/

/-- The exponent suffix accepted by `parseFloat` (`e`/`E`, optional sign,
digits); absent or malformed suffixes contribute exponent 0. -/
def parseExpSuffix (cs : List Char) : ℤ :=
  match cs with
  | c :: rest =>
    if c = 'e' ∨ c = 'E' then
      let p := splitSignPM rest
      let eds := p.2.takeWhile isDigitChar
      if eds.isEmpty then 0
      else if p.1 then -(digitsVal eds : ℤ) else (digitsVal eds : ℤ)
    else 0
  | [] => 0

/-- `parseFloat`: skip leading whitespace, then the longest prefix of the form
`[+-]? digits [. digits] [exponent]`; `none` when no digit is found. -/
def jsParseFloat (cs0 : List Char) : Option ℚ :=
  let cs := cs0.dropWhile isJsWhitespace
  let p := splitSignPM cs
  let ds := p.2.takeWhile isDigitChar
  let cs2 := p.2.dropWhile isDigitChar
  let fr : List Char × List Char :=
    match cs2 with
    | c :: t => if c = '.' then (t.takeWhile isDigitChar, t.dropWhile isDigitChar) else ([], cs2)
    | [] => ([], cs2)
  if ds.isEmpty && fr.1.isEmpty then none
  else
    let mant : ℚ := (digitsVal ds : ℚ) + (digitsVal fr.1 : ℚ) / 10 ^ fr.1.length
    let e : ℤ := parseExpSuffix fr.2
    some ((if p.1 then -1 else 1) * mant * 10 ^ e)

/-- `parseNumber` (excelService.ts lines 12–21) on an already-normalized cell
value: numbers pass through; a string is rejected when blank after trimming,
otherwise its first comma is replaced by a period and it goes to `parseFloat`. -/
def parseNumber : ℚ ⊕ String → Option ℚ
  | Sum.inl x => some x
  | Sum.inr s =>
    if (jsTrim s.data).isEmpty then none
    else jsParseFloat (replaceFirst ',' '.' s.data)

/-! ### Angle codec -/

/-- The anchored regex `^(-?\d+)[°\s]+(\d+)` of `parseAngleToDecimal`:
greedy digit run, at least one separator, greedy minute run.  Returns the
`parseInt` values of the two capture groups. -/
def dmsMatch (cs : List Char) : Option (ℤ × ℕ) :=
  let p := splitSign cs
  let ds := p.2.takeWhile isDigitChar
  let cs2 := p.2.dropWhile isDigitChar
  if ds.isEmpty then none
  else
    let seps := cs2.takeWhile isDmsSep
    let cs3 := cs2.dropWhile isDmsSep
    if seps.isEmpty then none
    else
      let ms := cs3.takeWhile isDigitChar
      if ms.isEmpty then none
      else some ((if p.1 then -(digitsVal ds : ℤ) else (digitsVal ds : ℤ)), digitsVal ms)

/-- `parseAngleToDecimal` (excelService.ts lines 50–68).  Note the source
computes `Math.abs(deg) + (min / 60) * sign`: only the minute term is
sign-adjusted.  (`parseInt("-00")` yields `-0`, and `-0 < 0` is false in JS,
which the integer embedding reproduces since `-(0 : ℤ) = 0`.) -/
def parseAngleToDecimal : ℚ ⊕ String → Option ℚ
  | Sum.inl x => some x
  | Sum.inr s =>
    match dmsMatch s.data with
    | some dm =>
      let sign : ℚ := if dm.1 < 0 then -1 else 1
      some ((|dm.1| : ℤ) + ((dm.2 : ℚ) / 60) * sign)
    | none => parseNumber (Sum.inr s)

/-- `formatAngle` (excelService.ts lines 71–83): sign, zero-padded floor of
the absolute degrees, `°`, zero-padded rounded minutes, minute mark. -/
def formatAngle (decimalDeg : ℚ) : String :=
  let signL : List Char := if decimalDeg < 0 then ['-'] else []
  let absVal := |decimalDeg|
  let deg : ℕ := (⌊absVal⌋).toNat
  let minPart := (absVal - (deg : ℚ)) * 60
  let mn : ℕ := (jsRound minPart).toNat
  String.mk (signL ++ padStartK 2 (natDigits deg) ++ [degChar] ++ padStartK 2 (natDigits mn) ++ [quoteChar])

/-- `Number.prototype.toFixed(p)` as a string (used for the composite-string
rewrite path): sign of `x`, digits of the rounded scaled value, and exactly
`p` fractional digits. -/
def toFixedStr (p : ℕ) (x : ℚ) : String :=
  let n : ℕ := (⌊|x| * 10 ^ p + 1 / 2⌋).toNat
  let ip := n / 10 ^ p
  let fp := n % 10 ^ p
  let fracL : List Char := if p = 0 then [] else '.' :: padStartK p (natDigits fp)
  String.mk ((if x < 0 then ['-'] else []) ++ natDigits ip ++ fracL)

/-! ### Grid model -/

/-- The shapes an ExcelJS `cell.value` can take, as inspected by
`getCellValue` (excelService.ts lines 24–45). -/
inductive RawValue
  | empty
  | num (x : ℚ)
  | str (s : String)
  | formulaNum (x : ℚ)
  | formulaStr (s : String)
  | formulaObj
  | richText (runs : List String)
  | hyperlink (text : String) (target : String)
  | other
deriving DecidableEq

/-- A grid cell: raw value, display format, and whether it is a merged-region
follower (`cell.isMerged && cell.address !== cell.master.address`). -/
structure Cell where
  value : RawValue
  numFmt : Option String
  isMergedFollower : Bool
deriving DecidableEq

def emptyCell : Cell := ⟨RawValue.empty, none, false⟩

/-- A row is its cells in column order; `getCell` is 1-based like ExcelJS,
with absent positions reading as empty cells. -/
abbrev Row := List Cell

def getCell (row : Row) (i : ℕ) : Cell := row.getD (i - 1) emptyCell

/-- `getCellValue` (excelService.ts lines 24–45). -/
def getCellValue : RawValue → Option (ℚ ⊕ String)
  | RawValue.empty => none
  | RawValue.num x => some (Sum.inl x)
  | RawValue.str s => some (Sum.inr s)
  | RawValue.formulaNum x => some (Sum.inl x)
  | RawValue.formulaStr s => some (Sum.inr s)
  | RawValue.formulaObj => none
  | RawValue.richText runs => some (Sum.inr (String.join runs))
  | RawValue.hyperlink t _ => some (Sum.inr t)
  | RawValue.other => none

/-- `ProcessingStats` (types.ts). -/
structure Stats where
  totalRows : ℕ
  processedCells : ℕ
  outOfSpecCount : ℕ
  inSpecCount : ℕ
deriving DecidableEq

/-- Threaded processing state: position in the `Math.random()` stream plus the
mutable stats record. -/
structure PState where
  rng : ℕ
  stats : Stats
deriving DecidableEq

def bumpProcessed (st : PState) : PState :=
  { st with stats := { st.stats with processedCells := st.stats.processedCells + 1 } }

def bumpTotalRows (st : PState) : PState :=
  { st with stats := { st.stats with totalRows := st.stats.totalRows + 1 } }

/-- `parseNumber` applied to a possibly-null normalized value. -/
def parseNumberOpt : Option (ℚ ⊕ String) → Option ℚ
  | none => none
  | some v => parseNumber v

/-- `parseAngleToDecimal` applied to a possibly-null normalized value
(JS `parseAngleToDecimal(null)` falls through both type checks to `null`). -/
def parseAngleOpt : Option (ℚ ⊕ String) → Option ℚ
  | none => none
  | some v => parseAngleToDecimal v

/-- `text.startsWith("ang")`. -/
def startsWithAng : List Char → Bool
  | 'a' :: 'n' :: 'g' :: _ => true
  | _ => false

/-- Row classification from the description column B
(excelService.ts lines 164–171). -/
def rowIsAngle (row : Row) : Bool :=
  match getCellValue (getCell row 2).value with
  | some (Sum.inr s) =>
    let text := (jsTrim s.data).map jsToLower
    startsWithAng text || text.any (fun c => c = degChar)
  | _ => false

/-- The bounds decoded from the tolerance columns C and D of the current row
(excelService.ts lines 173–193). -/
def rowBounds (row : Row) : Option ℚ × Option ℚ :=
  let isAngle := rowIsAngle row
  let rawMax := getCellValue (getCell row 3).value
  let rawMin := getCellValue (getCell row 4).value
  (if isAngle then parseAngleOpt rawMax else parseNumberOpt rawMax,
   if isAngle then parseAngleOpt rawMin else parseNumberOpt rawMin)

/-- `if (val !== null) current = val` — one latch. -/
def latch1 (new old : Option ℚ) : Option ℚ :=
  match new with
  | some v => some v
  | none => old

/-- The latch update a visited row applies to `(currentMax, currentMin)`
(excelService.ts lines 195–197). -/
def latchStep (cur : Option ℚ × Option ℚ) (row : Row) : Option ℚ × Option ℚ :=
  (latch1 (rowBounds row).1 cur.1, latch1 (rowBounds row).2 cur.2)

/-- The `(currentMax, currentMin)` pair in force at each visited row. -/
def windowTrace (init : Option ℚ × Option ℚ) : List Row → List (Option ℚ × Option ℚ)
  | [] => []
  | r :: rs => latchStep init r :: windowTrace (latchStep init r) rs

/-- Last-write-wins helper: the last element of `l` if any, else `d`. -/
def lastOr (d : Option ℚ) (l : List ℚ) : Option ℚ :=
  match l.getLast? with
  | some v => some v
  | none => d

/-! ### Cell rewriter -/

/-- The anchored test `^-?\d*([.,]\d+)?\s*$` run on the trimmed cell text
(excelService.ts line 224).  All parts are optional except that a present
separator must be followed by at least one digit; the regex accepts exactly
when the whole remainder is whitespace. -/
def cleanTokTest (cs : List Char) : Bool :=
  let p := splitSign cs
  let cs2 := p.2.dropWhile isDigitChar
  let cs3 : List Char :=
    match cs2 with
    | sep :: t =>
      if sep = '.' || sep = ',' then
        if (t.takeWhile isDigitChar).isEmpty then cs2 else t.dropWhile isDigitChar
      else cs2
    | [] => []
  (cs3.dropWhile isJsWhitespace).isEmpty

/-- One attempt of the global linear token regex `-?\d+(?:[.,]\d+)?` at the
head of `cs`: the matched text and the remainder, or `none`. -/
def matchLinTok (cs : List Char) : Option (List Char × List Char) :=
  let p := splitSign cs
  let sgnL : List Char := if p.1 then ['-'] else []
  let ds := p.2.takeWhile isDigitChar
  let cs2 := p.2.dropWhile isDigitChar
  if ds.isEmpty then none
  else
    match cs2 with
    | sep :: t =>
      if sep = '.' || sep = ',' then
        let fs := t.takeWhile isDigitChar
        if fs.isEmpty then some (sgnL ++ ds, cs2)
        else some (sgnL ++ ds ++ [sep] ++ fs, t.dropWhile isDigitChar)
      else some (sgnL ++ ds, cs2)
    | [] => some (sgnL ++ ds, [])

/-- One attempt of the global angular token regex `-?\d+[°\s]\d+` with optional minute mark at the
head of `cs`. -/
def matchAngTok (cs : List Char) : Option (List Char × List Char) :=
  let p := splitSign cs
  let sgnL : List Char := if p.1 then ['-'] else []
  let ds := p.2.takeWhile isDigitChar
  let cs2 := p.2.dropWhile isDigitChar
  if ds.isEmpty then none
  else
    match cs2 with
    | sep :: t =>
      if isDmsSep sep then
        let ms := t.takeWhile isDigitChar
        if ms.isEmpty then none
        else
          match t.dropWhile isDigitChar with
          | q :: rest => if q = quoteChar then some (sgnL ++ ds ++ [sep] ++ ms ++ [quoteChar], rest)
                         else some (sgnL ++ ds ++ [sep] ++ ms, q :: rest)
          | [] => some (sgnL ++ ds ++ [sep] ++ ms, [])
      else none
    | [] => none

def matchTok (isAngle : Bool) (cs : List Char) : Option (List Char × List Char) :=
  if isAngle then matchAngTok cs else matchLinTok cs

/-- `pattern.test(...)`: a match exists at some position. -/
def hasTok (isAngle : Bool) : List Char → Bool
  | [] => false
  | c :: rest => (matchTok isAngle (c :: rest)).isSome || hasTok isAngle rest

/-- Replacement text for a rewritten token (excelService.ts lines 291–301):
angular tokens re-encode through `formatAngle`; linear tokens print with two
decimals, with a comma separator when the matched text used one. -/
def tokOut (isAngle : Bool) (m : List Char) (nv : ℚ) : List Char :=
  if isAngle then (formatAngle nv).data
  else
    let fixed := (toFixedStr 2 nv).data
    if m.any (fun c => c = ',') then replaceFirst '.' ',' fixed else fixed

/-- The replacement callback of `cellValueRaw.replace(pattern, ...)` for one
matched token (excelService.ts lines 268–302): parse, classify, regenerate,
count; an unparsable token is kept verbatim and does not set `cellModified`. -/
def replaceTok (rand : ℕ → ℚ) (isAngle : Bool) (mn mx : ℚ) (precision : ℕ)
    (m : List Char) (st : PState) : List Char × PState × Bool :=
  let val : Option ℚ :=
    if isAngle then parseAngleToDecimal (Sum.inr (String.mk m))
    else parseNumber (Sum.inr (String.mk m))
  match val with
  | none => (m, st, false)
  | some v =>
    if mx < v ∨ v < mn then
      let pr := randomizeOutSpec rand st.rng v mn mx precision isAngle
      let st1 : PState := ⟨st.rng + min (pr.2 + 1) 50,
        { st.stats with outOfSpecCount := st.stats.outOfSpecCount + 1 }⟩
      (tokOut isAngle m pr.1, st1, true)
    else
      let nv := randomizeInSpec mn mx precision (rand st.rng)
      let st1 : PState := ⟨st.rng + 1,
        { st.stats with inSpecCount := st.stats.inSpecCount + 1 }⟩
      (tokOut isAngle m nv, st1, true)

/-- Global scan-and-replace, as a JS global regex `replace` proceeds: try the
token pattern at the current position; on a match emit the replacement and
continue after the match, otherwise keep one character and move on.  The fuel
starts at the list length, which always suffices since every step consumes at
least one character (the fuel-0 branch is unreachable). -/
def replaceAllAux (rand : ℕ → ℚ) (isAngle : Bool) (mn mx : ℚ) (precision : ℕ) :
    ℕ → List Char → PState → Bool → List Char × PState × Bool
  | 0, cs, st, md => (cs, st, md)
  | _ + 1, [], st, md => ([], st, md)
  | fuel + 1, c :: rest, st, md =>
    match matchTok isAngle (c :: rest) with
    | some mr =>
      let t := replaceTok rand isAngle mn mx precision mr.1 st
      let r := replaceAllAux rand isAngle mn mx precision fuel mr.2 t.2.1 (md || t.2.2)
      (t.1 ++ r.1, r.2)
    | none =>
      let r := replaceAllAux rand isAngle mn mx precision fuel rest st md
      (c :: r.1, r.2)

def replaceAllTokens (rand : ℕ → ℚ) (isAngle : Bool) (mn mx : ℚ) (precision : ℕ)
    (cs : List Char) (st : PState) : List Char × PState × Bool :=
  replaceAllAux rand isAngle mn mx precision cs.length cs st false

/-- Write-back of the single-value case (excelService.ts lines 241–250):
angular rows get the re-encoded string; linear rows get the number with the
forced `0.00` display format. -/
def writeSingle (isAngle : Bool) (cell : Cell) (nv : ℚ) (st1 : PState) : Cell × PState :=
  if isAngle then ({ cell with value := RawValue.str (formatAngle nv) }, bumpProcessed st1)
  else ({ cell with value := RawValue.num nv, numFmt := some "0.00" }, bumpProcessed st1)

/-- Classification and regeneration of a decoded single value
(excelService.ts lines 230–250). -/
def caseABody (rand : ℕ → ℚ) (isAngle : Bool) (mn mx : ℚ) (precision : ℕ)
    (cell : Cell) (sv : ℚ) (st : PState) : Cell × PState :=
  if mx < sv ∨ sv < mn then
    let pr := randomizeOutSpec rand st.rng sv mn mx precision isAngle
    let st1 : PState := ⟨st.rng + min (pr.2 + 1) 50,
      { st.stats with outOfSpecCount := st.stats.outOfSpecCount + 1 }⟩
    writeSingle isAngle cell pr.1 st1
  else
    let nv := randomizeInSpec mn mx precision (rand st.rng)
    let st1 : PState := ⟨st.rng + 1,
      { st.stats with inSpecCount := st.stats.inSpecCount + 1 }⟩
    writeSingle isAngle cell nv st1

/-- The composite-string case B (excelService.ts lines 253–309). -/
def processComplexString (rand : ℕ → ℚ) (isAngle : Bool) (mn mx : ℚ) (precision : ℕ)
    (cell : Cell) (v : ℚ ⊕ String) (st : PState) : Cell × PState :=
  match v with
  | Sum.inr s =>
    if hasTok isAngle s.data then
      let r := replaceAllTokens rand isAngle mn mx precision s.data st
      if r.2.2 then ({ cell with value := RawValue.str (String.mk r.1) }, bumpProcessed r.2.1)
      else (cell, r.2.1)
    else (cell, st)
  | Sum.inl _ => (cell, st)

/-- Processing of one target-column cell (the `forEach` body,
excelService.ts lines 201–311). -/
def processCellValue (rand : ℕ → ℚ) (isAngle : Bool) (mn mx : ℚ)
    (cell : Cell) (st : PState) : Cell × PState :=
  if cell.isMergedFollower then (cell, st)
  else
    match getCellValue cell.value with
    | none => (cell, st)
    | some v =>
      if v = Sum.inr "" then (cell, st)
      else
        let precision : ℕ := if isAngle then 0 else 2
        let singleVal : Option ℚ := if isAngle then parseAngleToDecimal v else parseNumber v
        let isCleanNumberString : Bool :=
          match v with
          | Sum.inr s => cleanTokTest (jsTrim s.data)
          | _ => false
        let isNumberType : Bool := match v with | Sum.inl _ => true | _ => false
        let isStringType : Bool := match v with | Sum.inr _ => true | _ => false
        match singleVal with
        | some sv =>
          if isNumberType || isCleanNumberString || (isAngle && isStringType) then
            caseABody rand isAngle mn mx precision cell sv st
          else processComplexString rand isAngle mn mx precision cell v st
        | none => processComplexString rand isAngle mn mx precision cell v st

/-- Fold of `processCellValue` over the 1-based target columns of a row. -/
def processRowCells (rand : ℕ → ℚ) (isAngle : Bool) (mn mx : ℚ)
    (excelTargetCols : List ℕ) (row : Row) (st : PState) : Row × PState :=
  excelTargetCols.foldl
    (fun acc colIndex =>
      let pr := processCellValue rand isAngle mn mx (getCell acc.1 colIndex) acc.2
      (acc.1.set (colIndex - 1) pr.1, pr.2))
    (row, st)

/-- Processing of one visited row (the `eachRow` body,
excelService.ts lines 161–313): count it, classify it, latch the tolerance
window, and rewrite target cells only when both latched bounds are present. -/
def processRow (rand : ℕ → ℚ) (targetCols : List ℕ) (row : Row)
    (cur : Option ℚ × Option ℚ) (st : PState) : Row × (Option ℚ × Option ℚ) × PState :=
  let st1 := bumpTotalRows st
  let cur' := latchStep cur row
  match cur' with
  | (some mx, some mn) =>
    let pr := processRowCells rand (rowIsAngle row) mn mx (targetCols.map (· + 1)) row st1
    (pr.1, cur', pr.2)
  | _ => (row, cur', st1)

/-- `processSheet` (excelService.ts lines 150–314) over the rows the
`eachRow { includeEmpty: false }` iteration visits. -/
def processSheetRows (rand : ℕ → ℚ) (targetCols : List ℕ) :
    List Row → Option ℚ → Option ℚ → PState → List Row × PState
  | [], _, _, st => ([], st)
  | r :: rs, cMax, cMin, st =>
    let pr := processRow rand targetCols r (cMax, cMin) st
    let qr := processSheetRows rand targetCols rs pr.2.1.1 pr.2.1.2 pr.2.2
    (pr.1 :: qr.1, qr.2)

/-- The `workbook.eachSheet` loop of `processExcelBuffer`: sheets with rows are
processed (sharing one stats record and one random stream) and counted. -/
def processWorkbook (rand : ℕ → ℚ) (targetCols : List ℕ) :
    List (List Row) → PState → List (List Row) × PState × ℕ
  | [], st => ([], st, 0)
  | s :: ss, st =>
    if 0 < s.length then
      let p1 := processSheetRows rand targetCols s none none st
      let p2 := processWorkbook rand targetCols ss p1.2
      (p1.1 :: p2.1, p2.2.1, p2.2.2 + 1)
    else
      let p2 := processWorkbook rand targetCols ss st
      (s :: p2.1, p2.2.1, p2.2.2)

/-- `processExcelBuffer` (excelService.ts lines 316–342): throws when no sheet
had rows, otherwise returns the rewritten grid and the final stats. -/
def processExcelBuffer (rand : ℕ → ℚ) (sheets : List (List Row))
    (targetCols : List ℕ) : Except String (List (List Row) × Stats) :=
  let p := processWorkbook rand targetCols sheets ⟨0, ⟨0, 0, 0, 0⟩⟩
  if p.2.2 = 0 then Except.error "Nenhuma planilha válida com dados encontrada."
  else Except.ok (p.1, p.2.1.stats)

/-! ### Concrete fixtures and the spec-side token shape -/

/-- A linear row defining the window `[0, 10]` (description in B, upper bound
10 in C, lower bound 0 in D). -/
def c4R1 : Row := [emptyCell, ⟨RawValue.str "diam", none, false⟩,
  ⟨RawValue.num 10, none, false⟩, ⟨RawValue.num 0, none, false⟩]

/-- A visited row that defines no bounds. -/
def c4R2 : Row := [emptyCell, ⟨RawValue.str "note", none, false⟩]

/-- A row redefining only the upper bound, to 15. -/
def c4R3 : Row := [emptyCell, ⟨RawValue.str "diam", none, false⟩,
  ⟨RawValue.num 15, none, false⟩]

/-- The class of strings claim C8 describes, transcribed from the wording of
the claim itself (not from the source): a single numeric token — optional sign, digits,
optional decimal separator (period or comma) with digits — surrounded by
optional whitespace. -/
def specCleanSingleToken (s : String) : Prop :=
  ∃ (ws1 : List Char) (sgn : Bool) (ds fr ws2 : List Char),
    s.data = ws1 ++ ((if sgn then ['-'] else []) ++ (ds ++ (fr ++ ws2))) ∧
    ds ≠ [] ∧ (∀ c ∈ ds, isDigitChar c = true) ∧
    (∀ c ∈ ws1, isJsWhitespace c = true) ∧ (∀ c ∈ ws2, isJsWhitespace c = true) ∧
    (fr = [] ∨ ∃ sep fs, fr = sep :: fs ∧ (sep = '.' ∨ sep = ',') ∧ fs ≠ [] ∧
      ∀ c ∈ fs, isDigitChar c = true)

/-! ### Rounding lemmas -/

theorem jsRoundAway_intCast (R : ℤ) : jsRoundAway (R : ℚ) = R := by
  unfold jsRoundAway
  have h12 : ⌊(1/2 : ℚ)⌋ = 0 := by norm_num [Int.floor_eq_iff]
  split
  · rw [show (-(R : ℚ) + 1/2) = ((-R : ℤ) : ℚ) + 1/2 by push_cast; ring,
      Int.floor_int_add, h12]
    omega
  · rw [show ((R : ℚ) + 1/2) = ((R : ℤ) : ℚ) + 1/2 by norm_num,
      Int.floor_int_add, h12]
    omega

theorem jsRoundAway_mem {a b : ℤ} {y : ℚ} (h1 : (a : ℚ) < y) (h2 : y < (b : ℚ)) :
    a ≤ jsRoundAway y ∧ jsRoundAway y ≤ b := by
  unfold jsRoundAway
  split
  · constructor
    · have hlt : ⌊-y + 1/2⌋ < -a + 1 := by
        rw [Int.floor_lt]; push_cast; linarith
      omega
    · have hle := Int.le_floor.mpr (show ((-b : ℤ) : ℚ) ≤ -y + 1/2 by push_cast; linarith)
      omega
  · constructor
    · have hle := Int.le_floor.mpr (show ((a : ℤ) : ℚ) ≤ y + 1/2 by linarith)
      omega
    · have hlt : ⌊y + 1/2⌋ < b + 1 := by
        rw [Int.floor_lt]; push_cast; linarith
      omega

theorem toFixed_mem {p : ℕ} {a b : ℤ} {x : ℚ}
    (h1 : (a : ℚ) / 10 ^ p < x) (h2 : x < (b : ℚ) / 10 ^ p) :
    (a : ℚ) / 10 ^ p ≤ toFixed p x ∧ toFixed p x ≤ (b : ℚ) / 10 ^ p := by
  have hp : (0 : ℚ) < 10 ^ p := by positivity
  have h1' : (a : ℚ) < x * 10 ^ p := (div_lt_iff₀ hp).mp h1
  have h2' : x * 10 ^ p < (b : ℚ) := (lt_div_iff₀ hp).mp h2
  obtain ⟨ha, hb⟩ := jsRoundAway_mem h1' h2'
  unfold toFixed
  constructor
  · exact (div_le_div_iff_of_pos_right hp).mpr (by exact_mod_cast ha)
  · exact (div_le_div_iff_of_pos_right hp).mpr (by exact_mod_cast hb)

theorem toFixed_idem (p : ℕ) (x : ℚ) : toFixed p (toFixed p x) = toFixed p x := by
  unfold toFixed
  rw [div_mul_cancel₀ _ (by positivity : (10 : ℚ) ^ p ≠ 0), jsRoundAway_intCast]

/-- C1, counterexample: for the valid window `[1/250, 3/500]`
(= `[0.004, 0.006]`), precision 2 and the valid draw 0, `randomizeInSpec`
returns a value strictly below the lower bound — the claimed inclusion in
`[lowerBound, upperBound]` fails as stated. -/
theorem c1_randomizeInSpec_counterexample :
    (1/250 : ℚ) < 3/500 ∧ (0 : ℚ) ≤ 0 ∧ (0 : ℚ) < 1 ∧
      randomizeInSpec (1/250) (3/500) 2 0 < 1/250 := by
  refine ⟨by norm_num, le_refl 0, by norm_num, ?_⟩
  have ht : ¬ ((3/500 : ℚ) - 1/250 ≤ 0) := by norm_num
  have hs : ¬ ((3/500 : ℚ) - (3/500 - 1/250) * (1/20) ≤ 1/250 + (3/500 - 1/250) * (1/20)) := by
    norm_num
  have hfl : jsRoundAway ((0 * ((3/500 : ℚ) - (3/500 - 1/250) * (1/20) -
      (1/250 + (3/500 - 1/250) * (1/20))) + (1/250 + (3/500 - 1/250) * (1/20))) * 10 ^ 2) = 0 := by
    unfold jsRoundAway
    rw [if_neg (by norm_num)]
    norm_num [Int.floor_eq_iff]
  simp only [randomizeInSpec]
  rw [if_neg ht, if_neg hs]
  unfold toFixed
  rw [hfl]
  norm_num

/-- C1 (amended): for every tolerance window with `upperBound > lowerBound`
whose two bounds are themselves exact at the requested precision (integer
multiples of `10^(-precision)`), and every `Math.random()` draw in `[0, 1)`,
the value `randomizeInSpec` returns lies within `[lowerBound, upperBound]`
inclusive and equals its own rounding to the requested number of decimal
places. -/
theorem c1_randomizeInSpec_amended (mn mx : ℚ) (p : ℕ) (r : ℚ) (a b : ℤ)
    (hw : mn < mx) (hr0 : 0 ≤ r) (hr1 : r < 1)
    (ha : mn = (a : ℚ) / 10 ^ p) (hb : mx = (b : ℚ) / 10 ^ p) :
    mn ≤ randomizeInSpec mn mx p r ∧ randomizeInSpec mn mx p r ≤ mx ∧
      toFixed p (randomizeInSpec mn mx p r) = randomizeInSpec mn mx p r := by
  have ht : ¬ (mx - mn ≤ 0) := by linarith
  have hs : ¬ (mx - (mx - mn) * (1/20) ≤ mn + (mx - mn) * (1/20)) := by
    intro h; linarith
  have hval : randomizeInSpec mn mx p r =
      toFixed p (r * (mx - (mx - mn) * (1/20) - (mn + (mx - mn) * (1/20))) +
        (mn + (mx - mn) * (1/20))) := by
    simp only [randomizeInSpec]
    rw [if_neg ht, if_neg hs]
  set x : ℚ := r * (mx - (mx - mn) * (1/20) - (mn + (mx - mn) * (1/20))) +
    (mn + (mx - mn) * (1/20)) with hx
  have hd : (0 : ℚ) < mx - (mx - mn) * (1/20) - (mn + (mx - mn) * (1/20)) := by linarith
  have hxlo : mn < x := by
    have := mul_nonneg hr0 (le_of_lt hd)
    rw [hx]; nlinarith
  have hxhi : x < mx := by
    have := mul_lt_mul_of_pos_right hr1 hd
    rw [hx]; nlinarith
  have hmem := toFixed_mem (p := p) (a := a) (b := b) (x := x)
    (by rw [← ha]; exact hxlo) (by rw [← hb]; exact hxhi)
  rw [hval, ha, hb]
  exact ⟨hmem.1, hmem.2, toFixed_idem p x⟩

/-- Witness for `c1_randomizeInSpec_amended` at the window `[0, 1]`,
precision 2, draw `1/2`. -/
theorem c1_randomizeInSpec_amended_witness :
    (0 : ℚ) ≤ randomizeInSpec 0 1 2 (1/2) ∧ randomizeInSpec 0 1 2 (1/2) ≤ 1 ∧
      toFixed 2 (randomizeInSpec 0 1 2 (1/2)) = randomizeInSpec 0 1 2 (1/2) :=
  c1_randomizeInSpec_amended 0 1 2 (1/2) 0 100 (by norm_num) (by norm_num)
    (by norm_num) (by norm_num) (by norm_num)

/-- C7: there is a decimal-degree value — here `10.995`, whose fractional part
exceeds 59.5 arc-minutes — for which `formatAngle` produces a minute field of
`60` that is not carried into the degree part: the output is `10°60` followed
by the minute mark. -/
theorem c7_formatAngle_sixty_minutes :
    formatAngle (10995/1000) = String.mk ['1', '0', degChar, '6', '0', quoteChar] := by
  have h1 : ¬ ((10995/1000 : ℚ) < 0) := by norm_num
  have h2 : |(10995/1000 : ℚ)| = 10995/1000 := abs_of_nonneg (by norm_num)
  have h3 : (⌊(10995/1000 : ℚ)⌋).toNat = 10 := by
    have h : ⌊(10995/1000 : ℚ)⌋ = 10 := by norm_num [Int.floor_eq_iff]
    rw [h]; rfl
  have h4 : (jsRound (((10995/1000 : ℚ) - ((10 : ℕ) : ℚ)) * 60)).toNat = 60 := by
    have h : jsRound (((10995/1000 : ℚ) - ((10 : ℕ) : ℚ)) * 60) = 60 := by
      unfold jsRound
      norm_num [Int.floor_eq_iff]
    rw [h]; rfl
  simp only [formatAngle, h1, h2, h3, h4, if_false]
  decide

/-! ### The out-of-spec generator loop (claims C2, C6) -/

theorem randOutAux_spec (rand : ℕ → ℚ) (i0 : ℕ) (orig mn mx : ℚ) (p : ℕ)
    (ang : Bool) (step : ℚ) :
    ∀ (fuel attempts : ℕ),
      ((randOutAux rand i0 orig mn mx p ang step attempts fuel).1 ≠ orig →
        (mx < (randOutAux rand i0 orig mn mx p ang step attempts fuel).1 ∨
         (randOutAux rand i0 orig mn mx p ang step attempts fuel).1 < mn)) ∧
      ((randOutAux rand i0 orig mn mx p ang step attempts fuel).1 ≠ orig →
        (randOutAux rand i0 orig mn mx p ang step attempts fuel).2 ≤ 20 →
        ((mx < orig ∧ mx < (randOutAux rand i0 orig mn mx p ang step attempts fuel).1) ∨
         (orig < mn ∧ (randOutAux rand i0 orig mn mx p ang step attempts fuel).1 < mn)))
  | 0, attempts => by
    constructor
    · intro hne
      exact absurd rfl hne
    · intro hne
      exact absurd rfl hne
  | fuel + 1, attempts => by
    simp only [randOutAux]
    split
    · rename_i hacc
      obtain ⟨hout, hdir, hne⟩ := hacc
      refine ⟨fun _ => hout, fun _ hle => ?_⟩
      rcases hdir with hd | hd | hgt
      · exact Or.inl hd
      · exact Or.inr hd
      · omega
    · exact randOutAux_spec rand i0 orig mn mx p ang step fuel (attempts + 1)

/-- C2: for an original value strictly outside `[lowerBound, upperBound]`,
whenever `randomizeOutSpec` returns a value different from the original that
value is still strictly outside the window, and whenever the accepting attempt
occurred at attempt count ≤ 20 the returned value lies on the same side of the
window (above the upper bound, or below the lower bound) as the original. -/
theorem c2_randomizeOutSpec_side (rand : ℕ → ℚ) (i0 : ℕ) (orig mn mx : ℚ)
    (p : ℕ) (ang : Bool) (_h : mx < orig ∨ orig < mn) :
    ((randomizeOutSpec rand i0 orig mn mx p ang).1 ≠ orig →
      (mx < (randomizeOutSpec rand i0 orig mn mx p ang).1 ∨
       (randomizeOutSpec rand i0 orig mn mx p ang).1 < mn)) ∧
    ((randomizeOutSpec rand i0 orig mn mx p ang).1 ≠ orig →
      (randomizeOutSpec rand i0 orig mn mx p ang).2 ≤ 20 →
      ((mx < orig ∧ mx < (randomizeOutSpec rand i0 orig mn mx p ang).1) ∨
       (orig < mn ∧ (randomizeOutSpec rand i0 orig mn mx p ang).1 < mn))) := by
  simp only [randomizeOutSpec]
  exact randOutAux_spec rand i0 orig mn mx p ang _ 50 0

/-- Witness for `c2_randomizeOutSpec_side`: original 20 above the window
`[0, 10]`, precision 2, linear. -/
theorem c2_randomizeOutSpec_side_witness :
    ((randomizeOutSpec (fun _ => 69/70) 0 20 0 10 2 false).1 ≠ 20 →
      (10 < (randomizeOutSpec (fun _ => 69/70) 0 20 0 10 2 false).1 ∨
       (randomizeOutSpec (fun _ => 69/70) 0 20 0 10 2 false).1 < 0)) ∧
    ((randomizeOutSpec (fun _ => 69/70) 0 20 0 10 2 false).1 ≠ 20 →
      (randomizeOutSpec (fun _ => 69/70) 0 20 0 10 2 false).2 ≤ 20 →
      (((10 : ℚ) < 20 ∧ 10 < (randomizeOutSpec (fun _ => 69/70) 0 20 0 10 2 false).1) ∨
       ((20 : ℚ) < 0 ∧ (randomizeOutSpec (fun _ => 69/70) 0 20 0 10 2 false).1 < 0))) :=
  c2_randomizeOutSpec_side (fun _ => 69/70) 0 20 0 10 2 false (Or.inl (by norm_num))

theorem randOutAux_exhaust (rand : ℕ → ℚ) (i0 : ℕ) (orig mn mx : ℚ) (p : ℕ)
    (ang : Bool) (step : ℚ) :
    ∀ (fuel attempts : ℕ),
      (∀ k, attempts ≤ k → k < attempts + fuel →
        ¬ outSpecAccepts orig mn mx k (outSpecCandidate orig p ang step (rand (i0 + k)))) →
      (randOutAux rand i0 orig mn mx p ang step attempts fuel).1 = orig
  | 0, attempts, _ => rfl
  | fuel + 1, attempts, h => by
    simp only [randOutAux]
    rw [if_neg (h attempts le_rfl (by omega))]
    exact randOutAux_exhaust rand i0 orig mn mx p ang step fuel (attempts + 1)
      (fun k hk1 hk2 => h k (by omega) (by omega))

/-- C6: when none of the 50 bounded attempts of `randomizeOutSpec` produces an
acceptable candidate, the function returns the original value unmodified (and,
being a total function, raises no error), for every input value, window,
precision and angular flag. -/
theorem c6_randomizeOutSpec_exhausted (rand : ℕ → ℚ) (i0 : ℕ) (orig mn mx : ℚ)
    (p : ℕ) (ang : Bool)
    (h : ∀ k, k < 50 → ¬ outSpecAccepts orig mn mx k
      (outSpecCandidate orig p ang (if ang then 1/60 else 1/10 ^ p) (rand (i0 + k)))) :
    (randomizeOutSpec rand i0 orig mn mx p ang).1 = orig := by
  simp only [randomizeOutSpec]
  exact randOutAux_exhaust rand i0 orig mn mx p ang _ 50 0 (fun k hk1 _ => h k (by omega))

/-- Witness for `c6_randomizeOutSpec_exhausted`: an in-spec original (5 inside
`[0, 10]`) with the constant-zero draw stream; every candidate is `4.97`,
in-spec, so no attempt accepts and the original is returned. -/
theorem c6_randomizeOutSpec_exhausted_witness :
    (randomizeOutSpec (fun _ => 0) 0 5 0 10 2 false).1 = 5 := by
  apply c6_randomizeOutSpec_exhausted
  intro k hk
  have hc : outSpecCandidate 5 2 false (if false then (1 : ℚ)/60 else 1/10 ^ 2) 0 = 497/100 := by
    simp only [outSpecCandidate, if_neg]
    have hf : ⌊(0 : ℚ) * 7⌋ = 0 := by norm_num
    rw [hf]
    norm_num
    unfold toFixed
    rw [show ((497 : ℚ)/100 * 10 ^ 2) = ((497 : ℤ) : ℚ) by norm_num, jsRoundAway_intCast]
    norm_num
  rw [hc]
  intro hacc
  obtain ⟨ho, _, _⟩ := hacc
  rcases ho with hx | hx <;> norm_num at hx

/-! ### List and character lemmas -/

theorem data_mk (l : List Char) : (String.mk l).data = l := rfl

theorem takeWhile_all_append (p : Char → Bool) (A B : List Char)
    (hA : ∀ a ∈ A, p a = true) : (A ++ B).takeWhile p = A ++ B.takeWhile p := by
  induction A with
  | nil => simp
  | cons a t ih => simp [hA a (by simp), ih (fun x hx => hA x (by simp [hx]))]

theorem dropWhile_all_append (p : Char → Bool) (A B : List Char)
    (hA : ∀ a ∈ A, p a = true) : (A ++ B).dropWhile p = B.dropWhile p := by
  induction A with
  | nil => simp
  | cons a t ih => simp [hA a (by simp), ih (fun x hx => hA x (by simp [hx]))]

theorem takeWhile_all (p : Char → Bool) (A : List Char)
    (hA : ∀ a ∈ A, p a = true) : A.takeWhile p = A := by
  simpa using takeWhile_all_append p A [] hA

theorem dropWhile_all (p : Char → Bool) (A : List Char)
    (hA : ∀ a ∈ A, p a = true) : A.dropWhile p = [] := by
  simpa using dropWhile_all_append p A [] hA

theorem digit_ne_dash {c : Char} (h : isDigitChar c = true) : ¬ (c = '-') := by
  intro hc; subst hc; exact absurd h (by decide)

theorem digit_not_dms {c : Char} (h : isDigitChar c = true) : isDmsSep c = false := by
  simp only [isDigitChar, Bool.and_eq_true, decide_eq_true_eq] at h
  simp only [isDmsSep, isJsWhitespace, Bool.or_eq_false_iff, decide_eq_false_iff_not]
  omega

theorem digit_not_ws {c : Char} (h : isDigitChar c = true) : isJsWhitespace c = false := by
  simp only [isDigitChar, Bool.and_eq_true, decide_eq_true_eq] at h
  simp only [isJsWhitespace, Bool.or_eq_false_iff, decide_eq_false_iff_not]
  omega

theorem digitsVal_append_singleton (A : List Char) (c : Char) :
    digitsVal (A ++ [c]) = 10 * digitsVal A + (c.toNat - 48) := by
  simp [digitsVal, List.foldl_append]

theorem digitChar_toNat : ∀ n, n < 10 → (digitChar n).toNat = 48 + n := by decide

theorem digitChar_isDigit : ∀ n, n < 10 → isDigitChar (digitChar n) = true := by decide

theorem natDigitsAux_spec : ∀ (fuel n : ℕ), n < 10 ^ fuel → fuel ≠ 0 →
    natDigitsAux fuel n ≠ [] ∧ (∀ c ∈ natDigitsAux fuel n, isDigitChar c = true) ∧
      digitsVal (natDigitsAux fuel n) = n
  | 0, _, _, hf => absurd rfl hf
  | fuel + 1, n, hn, _ => by
    by_cases h10 : n < 10
    · simp only [natDigitsAux, if_pos h10]
      refine ⟨by simp, ?_, ?_⟩
      · intro c hc
        simp only [List.mem_singleton] at hc
        subst hc
        exact digitChar_isDigit n h10
      · simp [digitsVal, digitChar_toNat n h10]
    · have hfz : fuel ≠ 0 := by
        intro hf
        subst hf
        norm_num at hn
        omega
      have hdiv : n / 10 < 10 ^ fuel := by
        rw [Nat.div_lt_iff_lt_mul (by norm_num)]
        calc n < 10 ^ (fuel + 1) := hn
        _ = 10 ^ fuel * 10 := by ring
      obtain ⟨h1, h2, h3⟩ := natDigitsAux_spec fuel (n / 10) hdiv hfz
      simp only [natDigitsAux, if_neg h10]
      refine ⟨by simp, ?_, ?_⟩
      · intro c hc
        rw [List.mem_append] at hc
        rcases hc with hc | hc
        · exact h2 c hc
        · simp only [List.mem_singleton] at hc
          subst hc
          exact digitChar_isDigit _ (Nat.mod_lt _ (by norm_num))
      · rw [digitsVal_append_singleton, h3,
          digitChar_toNat _ (Nat.mod_lt _ (by norm_num))]
        omega

theorem natDigits_spec (n : ℕ) :
    natDigits n ≠ [] ∧ (∀ c ∈ natDigits n, isDigitChar c = true) ∧
      digitsVal (natDigits n) = n := by
  apply natDigitsAux_spec (n + 1) n _ (by omega)
  calc n < 10 ^ n := Nat.lt_pow_self (by norm_num) n
  _ ≤ 10 ^ (n + 1) := Nat.pow_le_pow_right (by norm_num) (by omega)

theorem digitsVal_cons_zero (l : List Char) : digitsVal ('0' :: l) = digitsVal l := by
  simp only [digitsVal, List.foldl_cons]
  rw [show 10 * 0 + ('0'.toNat - 48) = 0 from by decide]

theorem digitsVal_padStartK (k : ℕ) (cs : List Char) :
    digitsVal (padStartK k cs) = digitsVal cs := by
  unfold padStartK
  split
  · generalize k - cs.length = m
    induction m with
    | zero => simp
    | succ i ih => rw [List.replicate_succ, List.cons_append, digitsVal_cons_zero, ih]
  · rfl

theorem padStartK_digits (k : ℕ) (cs : List Char) (h : ∀ c ∈ cs, isDigitChar c = true) :
    ∀ c ∈ padStartK k cs, isDigitChar c = true := by
  unfold padStartK
  split
  · intro c hc
    rw [List.mem_append] at hc
    rcases hc with hc | hc
    · rw [List.eq_of_mem_replicate hc]
      decide
    · exact h c hc
  · exact h

theorem padStartK_ne_nil (k : ℕ) (cs : List Char) (h : cs ≠ []) : padStartK k cs ≠ [] := by
  unfold padStartK
  split
  · intro hcon
    exact h (List.append_eq_nil.mp hcon).2
  · exact h

/-- The degree-minute regex on a well-formed `DD°MM` + minute-mark character
list. -/
theorem dmsMatch_format (A B : List Char) (hA : A ≠ []) (hA2 : ∀ c ∈ A, isDigitChar c = true)
    (hB : B ≠ []) (hB2 : ∀ c ∈ B, isDigitChar c = true) :
    dmsMatch (A ++ degChar :: (B ++ [quoteChar])) = some ((digitsVal A : ℤ), digitsVal B) := by
  obtain ⟨a, A', rfl⟩ := List.exists_cons_of_ne_nil hA
  obtain ⟨b, B', rfl⟩ := List.exists_cons_of_ne_nil hB
  have hax := hA2 a (by simp)
  have hbx := hB2 b (by simp)
  have hA2' : ∀ c ∈ A', isDigitChar c = true := fun c hc => hA2 c (by simp [hc])
  have hB2' : ∀ c ∈ B', isDigitChar c = true := fun c hc => hB2 c (by simp [hc])
  have hbns : ¬ isDmsSep b = true := by simp [digit_not_dms hbx]
  have hdnd : ¬ isDigitChar degChar = true := by decide
  have hqnd : ¬ isDigitChar quoteChar = true := by decide
  have hTW1 : List.takeWhile isDigitChar (a :: (A' ++ degChar :: (b :: (B' ++ [quoteChar])))) =
      a :: A' := by
    rw [List.takeWhile_cons_of_pos hax, takeWhile_all_append _ _ _ hA2',
      List.takeWhile_cons_of_neg hdnd]
    simp
  have hDW1 : List.dropWhile isDigitChar (a :: (A' ++ degChar :: (b :: (B' ++ [quoteChar])))) =
      degChar :: (b :: (B' ++ [quoteChar])) := by
    rw [List.dropWhile_cons_of_pos hax, dropWhile_all_append _ _ _ hA2',
      List.dropWhile_cons_of_neg hdnd]
  have hTW2 : List.takeWhile isDmsSep (degChar :: (b :: (B' ++ [quoteChar]))) = [degChar] := by
    rw [List.takeWhile_cons_of_pos (by decide), List.takeWhile_cons_of_neg hbns]
  have hDW2 : List.dropWhile isDmsSep (degChar :: (b :: (B' ++ [quoteChar]))) =
      b :: (B' ++ [quoteChar]) := by
    rw [List.dropWhile_cons_of_pos (by decide), List.dropWhile_cons_of_neg hbns]
  have hTW3 : List.takeWhile isDigitChar (b :: (B' ++ [quoteChar])) = b :: B' := by
    rw [List.takeWhile_cons_of_pos hbx, takeWhile_all_append _ _ _ hB2',
      List.takeWhile_cons_of_neg hqnd]
    simp
  simp only [dmsMatch, splitSign, List.cons_append, if_neg (digit_ne_dash hax),
    hTW1, hDW1, hTW2, hDW2, hTW3]
  simp

/-- C3, counterexample: for the negative integer-minute value `-5`
(minutes `m = 0`), decoding the encoded string gives `5`, not `-5`:
`parseAngleToDecimal` computes `|deg| + (min/60)·sign` and never applies the
sign to the degree part, so the claimed round-trip fails for negative values. -/
theorem c3_angle_roundtrip_counterexample :
    parseAngleToDecimal (Sum.inr (formatAngle (-5 : ℚ))) = some 5 ∧ ((5 : ℚ)) ≠ -5 := by
  constructor
  · have hneg : ((-5 : ℚ) < 0) := by norm_num
    have habs : |(-5 : ℚ)| = 5 := by norm_num
    have hfl : (⌊(5 : ℚ)⌋).toNat = 5 := by
      have h : ⌊(5 : ℚ)⌋ = 5 := by norm_num [Int.floor_eq_iff]
      rw [h]; rfl
    have hjr : (jsRound (((5 : ℚ) - ((5 : ℕ) : ℚ)) * 60)).toNat = 0 := by
      have h0 : ((5 : ℚ) - ((5 : ℕ) : ℚ)) * 60 = 0 := by push_cast; ring
      rw [h0]
      have h : jsRound (0 : ℚ) = 0 := by
        unfold jsRound
        norm_num [Int.floor_eq_iff]
      rw [h]; rfl
    have hfmt : formatAngle (-5 : ℚ) = String.mk ['-', '0', '5', degChar, '0', '0', quoteChar] := by
      simp only [formatAngle, if_pos hneg, habs, hfl, hjr]
      decide
    rw [hfmt]
    simp only [parseAngleToDecimal, data_mk]
    rw [show dmsMatch ['-', '0', '5', degChar, '0', '0', quoteChar] = some ((-5 : ℤ), 0) from by decide]
    norm_num
  · norm_num

/-- C3 (amended): for every NON-NEGATIVE decimal-degree value whose fractional
part is an exact whole number of arc-minutes `m` with `0 ≤ m < 60` — i.e.
`d = D + m/60` with `D m : ℕ` — decoding the encoded degree-minute string
gives back `d`: `parseAngleToDecimal (formatAngle d) = some d`. -/
theorem c3_angle_roundtrip_amended (D m : ℕ) (hm : m < 60) :
    parseAngleToDecimal (Sum.inr (formatAngle ((D : ℚ) + (m : ℚ) / 60))) =
      some ((D : ℚ) + (m : ℚ) / 60) := by
  have hd0 : (0 : ℚ) ≤ (D : ℚ) + (m : ℚ) / 60 := by positivity
  have hnneg : ¬ (((D : ℚ) + (m : ℚ) / 60) < 0) := not_lt.mpr hd0
  have habs : |(D : ℚ) + (m : ℚ) / 60| = (D : ℚ) + (m : ℚ) / 60 := abs_of_nonneg hd0
  have hm60 : (m : ℚ) / 60 < 1 := by
    rw [div_lt_one (by norm_num)]
    exact_mod_cast hm
  have hfl : ⌊(D : ℚ) + (m : ℚ) / 60⌋ = (D : ℤ) := by
    rw [Int.floor_eq_iff]
    have h060 : (0 : ℚ) ≤ (m : ℚ) / 60 := by positivity
    constructor
    · push_cast
      linarith
    · push_cast
      linarith
  have htn : (⌊(D : ℚ) + (m : ℚ) / 60⌋).toNat = D := by rw [hfl]; exact Int.toNat_natCast D
  have hjr : (jsRound ((((D : ℚ) + (m : ℚ) / 60) - ((D : ℕ) : ℚ)) * 60)).toNat = m := by
    have hmin : (((D : ℚ) + (m : ℚ) / 60) - ((D : ℕ) : ℚ)) * 60 = (m : ℚ) := by ring
    rw [hmin]
    have h : jsRound (m : ℚ) = (m : ℤ) := by
      unfold jsRound
      rw [Int.floor_eq_iff]
      constructor
      · push_cast
        linarith
      · push_cast
        linarith
    rw [h]; exact Int.toNat_natCast m
  have hfmt : formatAngle ((D : ℚ) + (m : ℚ) / 60) =
      String.mk (padStartK 2 (natDigits D) ++ degChar :: (padStartK 2 (natDigits m) ++ [quoteChar])) := by
    simp only [formatAngle, hnneg, if_false, habs, htn, hjr, List.nil_append]
    congr 1
    simp
  rw [hfmt]
  simp only [parseAngleToDecimal, data_mk]
  rw [dmsMatch_format _ _ (padStartK_ne_nil _ _ (natDigits_spec D).1)
      (padStartK_digits _ _ (natDigits_spec D).2.1)
      (padStartK_ne_nil _ _ (natDigits_spec m).1)
      (padStartK_digits _ _ (natDigits_spec m).2.1)]
  rw [digitsVal_padStartK, digitsVal_padStartK, (natDigits_spec D).2.2, (natDigits_spec m).2.2]
  have hDnn : ¬ ((D : ℤ) < 0) := not_lt.mpr (Int.natCast_nonneg D)
  simp only [if_neg hDnn]
  push_cast
  norm_num [abs_of_nonneg]

/-- Witness for `c3_angle_roundtrip_amended` at 30 degrees 15 minutes
(d = 30.25). -/
theorem c3_angle_roundtrip_amended_witness :
    parseAngleToDecimal (Sum.inr (formatAngle (((30 : ℕ) : ℚ) + ((15 : ℕ) : ℚ) / 60))) =
      some (((30 : ℕ) : ℚ) + ((15 : ℕ) : ℚ) / 60) :=
  c3_angle_roundtrip_amended 30 15 (by norm_num)

theorem lastOr_cons (d : Option ℚ) (v : ℚ) (l : List ℚ) :
    lastOr d (v :: l) = lastOr (some v) l := by
  cases l with
  | nil => rfl
  | cons x xs =>
    unfold lastOr
    rw [List.getLast?_cons_cons]
    cases hgl : (x :: xs).getLast? with
    | none => simp at hgl
    | some w => rfl

theorem windowTrace_char : ∀ (rows : List Row) (init : Option ℚ × Option ℚ) (i : ℕ),
    i < rows.length →
    ((windowTrace init rows).getD i (none, none)).1 =
      lastOr init.1 ((rows.take (i + 1)).filterMap (fun r => (rowBounds r).1)) ∧
    ((windowTrace init rows).getD i (none, none)).2 =
      lastOr init.2 ((rows.take (i + 1)).filterMap (fun r => (rowBounds r).2))
  | [], _, i, h => absurd h (by simp)
  | r :: rs, init, 0, _ => by
    simp only [windowTrace, List.getD_cons_zero, List.take_succ_cons, List.take_zero,
      List.filterMap_cons]
    constructor
    · cases hb : (rowBounds r).1 with
      | none => simp [latchStep, latch1, hb, lastOr]
      | some v => simp [latchStep, latch1, hb, lastOr]
    · cases hb : (rowBounds r).2 with
      | none => simp [latchStep, latch1, hb, lastOr]
      | some v => simp [latchStep, latch1, hb, lastOr]
  | r :: rs, init, i + 1, h => by
    have hlen : i < rs.length := by simpa using h
    have ih := windowTrace_char rs (latchStep init r) i hlen
    simp only [windowTrace, List.getD_cons_succ, List.take_succ_cons, List.filterMap_cons]
    constructor
    · rw [ih.1]
      cases hb : (rowBounds r).1 with
      | none => simp [latchStep, latch1, hb]
      | some v => simp [latchStep, latch1, hb, lastOr_cons]
    · rw [ih.2]
      cases hb : (rowBounds r).2 with
      | none => simp [latchStep, latch1, hb]
      | some v => simp [latchStep, latch1, hb, lastOr_cons]

/-- C4: the tolerance window is latched per bound independently across visited
rows — the window in force at row `i` has, in each component, the last
non-null decoded bound among rows `0..i` (falling back to the incoming state);
and in particular for rows `R1 = [0,10]`, `R2` (no bounds), `R3` (upper 15
only) the windows in force are `[0,10]`, `[0,10]`, `[0,15]`. -/
theorem c4_latching :
    (∀ (rows : List Row) (init : Option ℚ × Option ℚ) (i : ℕ), i < rows.length →
      ((windowTrace init rows).getD i (none, none)).1 =
        lastOr init.1 ((rows.take (i + 1)).filterMap (fun r => (rowBounds r).1)) ∧
      ((windowTrace init rows).getD i (none, none)).2 =
        lastOr init.2 ((rows.take (i + 1)).filterMap (fun r => (rowBounds r).2))) ∧
    windowTrace (none, none) [c4R1, c4R2, c4R3] =
      [(some 10, some 0), (some 10, some 0), (some 15, some 0)] := by
  constructor
  · exact windowTrace_char
  · rfl

theorem c4_latching_witness :
    ((windowTrace ((none : Option ℚ), (none : Option ℚ)) [c4R1]).getD 0 (none, none)).1 =
      lastOr none (([c4R1].take 1).filterMap (fun r => (rowBounds r).1)) ∧
    ((windowTrace ((none : Option ℚ), (none : Option ℚ)) [c4R1]).getD 0 (none, none)).2 =
      lastOr none (([c4R1].take 1).filterMap (fun r => (rowBounds r).2)) :=
  c4_latching.1 [c4R1] (none, none) 0 (by norm_num)

/-- C10: a row is rewritten only when BOTH latched bounds are non-null after
the latch update of that row; when either one is still null, `processRow`
returns the row with every cell untouched, the latched pair, and a state in
which only `totalRows` changed. -/
theorem c10_bounds_required (rand : ℕ → ℚ) (targetCols : List ℕ) (row : Row)
    (cur : Option ℚ × Option ℚ) (st : PState)
    (h : (latchStep cur row).1 = none ∨ (latchStep cur row).2 = none) :
    processRow rand targetCols row cur st = (row, latchStep cur row, bumpTotalRows st) := by
  rcases hl : latchStep cur row with ⟨a, b⟩
  rw [hl] at h
  simp only [processRow]
  rw [hl]
  rcases h with h | h
  · subst h
    cases b <;> rfl
  · subst h
    cases a <;> rfl

theorem c10_bounds_required_witness :
    processRow (fun _ => 0) [4, 5, 6] c4R2 (none, none) ⟨0, ⟨0, 0, 0, 0⟩⟩ =
      (c4R2, latchStep (none, none) c4R2, bumpTotalRows ⟨0, ⟨0, 0, 0, 0⟩⟩) :=
  c10_bounds_required (fun _ => 0) [4, 5, 6] c4R2 (none, none) ⟨0, ⟨0, 0, 0, 0⟩⟩
    (Or.inl rfl)

theorem workbook_count_zero (rand : ℕ → ℚ) (cols : List ℕ) :
    ∀ (sheets : List (List Row)) (st : PState),
      ((processWorkbook rand cols sheets st).2.2 = 0 ↔ ∀ s ∈ sheets, s = [])
  | [], st => by simp [processWorkbook]
  | s :: ss, st => by
    simp only [processWorkbook]
    split
    · rename_i hpos
      constructor
      · intro hcon
        simp at hcon
      · intro h
        have := h s (by simp)
        subst this
        simp at hpos
    · rename_i hneg
      have hs : s = [] := by
        cases s with
        | nil => rfl
        | cons c t => simp at hneg
      subst hs
      simp only [List.forall_mem_cons]
      rw [workbook_count_zero rand cols ss st]
      simp

/-- C5: `processExcelBuffer` fails with the no-data error exactly when no
sheet of the workbook contains any row (in that case no rewritten output is
produced, the result being the error alone), and otherwise returns the
rewritten grid together with the final stats. -/
theorem c5_processExcelBuffer (rand : ℕ → ℚ) (sheets : List (List Row)) (cols : List ℕ) :
    ((∃ e, processExcelBuffer rand sheets cols = Except.error e) ↔ ∀ s ∈ sheets, s = []) ∧
    ((∃ s ∈ sheets, s ≠ []) →
      ∃ out stats, processExcelBuffer rand sheets cols = Except.ok (out, stats)) := by
  have hiff := workbook_count_zero rand cols sheets ⟨0, ⟨0, 0, 0, 0⟩⟩
  constructor
  · constructor
    · rintro ⟨e, he⟩
      simp only [processExcelBuffer] at he
      split at he
      · rename_i h0
        exact hiff.mp h0
      · exact absurd he (by simp)
    · intro hall
      refine ⟨"Nenhuma planilha válida com dados encontrada.", ?_⟩
      simp only [processExcelBuffer]
      rw [if_pos (hiff.mpr hall)]
  · rintro ⟨s, hs, hsne⟩
    have hn0 : ¬ ((processWorkbook rand cols sheets ⟨0, ⟨0, 0, 0, 0⟩⟩).2.2 = 0) :=
      fun h0 => hsne (hiff.mp h0 s hs)
    refine ⟨(processWorkbook rand cols sheets ⟨0, ⟨0, 0, 0, 0⟩⟩).1,
      (processWorkbook rand cols sheets ⟨0, ⟨0, 0, 0, 0⟩⟩).2.1.stats, ?_⟩
    simp only [processExcelBuffer]
    rw [if_neg hn0]

theorem c5_processExcelBuffer_witness :
    ∃ out stats, processExcelBuffer (fun _ => 0) [[c4R1]] [4, 5, 6] = Except.ok (out, stats) :=
  (c5_processExcelBuffer (fun _ => 0) [[c4R1]] [4, 5, 6]).2 ⟨[c4R1], by simp, by simp⟩

theorem ws_not_digit {c : Char} (h : isJsWhitespace c = true) : isDigitChar c = false := by
  simp only [isJsWhitespace, Bool.or_eq_true, decide_eq_true_eq] at h
  simp only [isDigitChar, Bool.and_eq_false_iff, decide_eq_false_iff_not]
  omega

theorem ws_ne_dash {c : Char} (h : isJsWhitespace c = true) : ¬ (c = '-') := by
  intro hc; subst hc; exact absurd h (by decide)

theorem jsTrim_nil_of_allWs (cs : List Char) (h : ∀ c ∈ cs, isJsWhitespace c = true) :
    jsTrim cs = [] := by
  simp [jsTrim, dropWhile_all _ _ h]

theorem parseNumber_allWs (s : String) (h : ∀ c ∈ s.data, isJsWhitespace c = true) :
    parseNumber (Sum.inr s) = none := by
  simp [parseNumber, jsTrim_nil_of_allWs _ h]

theorem dmsMatch_allWs (cs : List Char) (h : ∀ c ∈ cs, isJsWhitespace c = true) :
    dmsMatch cs = none := by
  cases cs with
  | nil => rfl
  | cons c t =>
    have hc := h c (by simp)
    simp only [dmsMatch, splitSign, if_neg (ws_ne_dash hc)]
    rw [List.takeWhile_cons_of_neg (by simp [ws_not_digit hc])]
    rfl

theorem parseAngle_allWs (s : String) (h : ∀ c ∈ s.data, isJsWhitespace c = true) :
    parseAngleToDecimal (Sum.inr s) = none := by
  simp only [parseAngleToDecimal, dmsMatch_allWs _ h]
  exact parseNumber_allWs s h

theorem matchLinTok_allWs (cs : List Char) (h : ∀ c ∈ cs, isJsWhitespace c = true) :
    matchLinTok cs = none := by
  cases cs with
  | nil => rfl
  | cons c t =>
    have hc := h c (by simp)
    simp only [matchLinTok, splitSign, if_neg (ws_ne_dash hc)]
    rw [List.takeWhile_cons_of_neg (by simp [ws_not_digit hc])]
    rfl

theorem matchAngTok_allWs (cs : List Char) (h : ∀ c ∈ cs, isJsWhitespace c = true) :
    matchAngTok cs = none := by
  cases cs with
  | nil => rfl
  | cons c t =>
    have hc := h c (by simp)
    simp only [matchAngTok, splitSign, if_neg (ws_ne_dash hc)]
    rw [List.takeWhile_cons_of_neg (by simp [ws_not_digit hc])]
    rfl

theorem hasTok_allWs (isAngle : Bool) (cs : List Char) (h : ∀ c ∈ cs, isJsWhitespace c = true) :
    hasTok isAngle cs = false := by
  induction cs with
  | nil => rfl
  | cons c t ih =>
    have ht : ∀ x ∈ t, isJsWhitespace x = true := fun x hx => h x (by simp [hx])
    simp only [hasTok, ih ht, Bool.or_false]
    cases isAngle
    · simp [matchTok, matchLinTok_allWs _ h]
    · simp [matchTok, matchAngTok_allWs _ h]

/-- C9: processing a target cell whose value is absent, the empty string, or a
whitespace-only string changes neither the cell nor any counter (in particular
`processedCells`), in both angular and linear rows. -/
theorem c9_blank_cell_noop (rand : ℕ → ℚ) (isAngle : Bool) (mn mx : ℚ)
    (cell : Cell) (st : PState) (s : String)
    (h : getCellValue cell.value = none ∨
      (getCellValue cell.value = some (Sum.inr s) ∧ ∀ c ∈ s.data, isJsWhitespace c = true)) :
    processCellValue rand isAngle mn mx cell st = (cell, st) := by
  unfold processCellValue
  by_cases hm : cell.isMergedFollower
  · rw [if_pos hm]
  rw [if_neg hm]
  rcases h with h | ⟨h, hws⟩
  · rw [h]
  · rw [h]
    by_cases hse : s = ""
    · subst hse
      simp
    have hne : ¬ ((Sum.inr s : ℚ ⊕ String) = Sum.inr "") := by simp [hse]
    dsimp only
    rw [if_neg hne]
    have hpn := parseNumber_allWs s hws
    have hpa := parseAngle_allWs s hws
    have hht := hasTok_allWs isAngle s.data hws
    cases isAngle <;>
      simp [hpn, hpa, hht, processComplexString]

/-- Witness for `c9_blank_cell_noop` on a single-space cell in a linear row. -/
theorem c9_blank_cell_noop_witness :
    processCellValue (fun _ => 0) false 0 10 ⟨RawValue.str " ", none, false⟩ ⟨0, ⟨0, 0, 0, 0⟩⟩ =
      (⟨RawValue.str " ", none, false⟩, ⟨0, ⟨0, 0, 0, 0⟩⟩) :=
  c9_blank_cell_noop (fun _ => 0) false 0 10 ⟨RawValue.str " ", none, false⟩ ⟨0, ⟨0, 0, 0, 0⟩⟩
    " " (Or.inr ⟨rfl, by decide⟩)

theorem ws_ne_plus {c : Char} (h : isJsWhitespace c = true) : ¬ (c = '+') := by
  intro hc; subst hc; exact absurd h (by decide)

theorem digit_ne_plus {c : Char} (h : isDigitChar c = true) : ¬ (c = '+') := by
  intro hc; subst hc; exact absurd h (by decide)

theorem digit_ne_comma {c : Char} (h : isDigitChar c = true) : ¬ (c = ',') := by
  intro hc; subst hc; exact absurd h (by decide)

theorem ws_ne_comma {c : Char} (h : isJsWhitespace c = true) : ¬ (c = ',') := by
  intro hc; subst hc; exact absurd h (by decide)

theorem replaceFirst_not_mem (a b : Char) (cs : List Char) (h : ∀ c ∈ cs, ¬ (c = a)) :
    replaceFirst a b cs = cs := by
  induction cs with
  | nil => rfl
  | cons c t ih =>
    simp only [replaceFirst, if_neg (h c (by simp))]
    rw [ih (fun x hx => h x (by simp [hx]))]

theorem replaceFirst_append (a b : Char) (A B : List Char) (h : ∀ c ∈ A, ¬ (c = a)) :
    replaceFirst a b (A ++ a :: B) = A ++ b :: B := by
  induction A with
  | nil => simp [replaceFirst]
  | cons c t ih =>
    simp only [List.cons_append, replaceFirst, if_neg (h c (by simp)), List.append_eq]
    rw [ih (fun x hx => h x (by simp [hx]))]

/-- `trim` isolates a core with non-whitespace endpoints from surrounding
whitespace. -/
theorem jsTrim_decomp (ws1 ws2 core : List Char)
    (h1 : ∀ c ∈ ws1, isJsWhitespace c = true) (h2 : ∀ c ∈ ws2, isJsWhitespace c = true)
    (hne : core ≠ [])
    (hh : ∀ c, core.head? = some c → isJsWhitespace c = false)
    (hl : ∀ c, core.getLast? = some c → isJsWhitespace c = false) :
    jsTrim (ws1 ++ (core ++ ws2)) = core := by
  obtain ⟨c0, t, rfl⟩ := List.exists_cons_of_ne_nil hne
  have hc0 : isJsWhitespace c0 = false := hh c0 rfl
  obtain ⟨ini, lc, hsnoc⟩ : ∃ ini lc, c0 :: t = ini ++ [lc] :=
    ⟨(c0 :: t).dropLast, (c0 :: t).getLast (by simp),
      (List.dropLast_append_getLast (by simp)).symm⟩
  have hlc : isJsWhitespace lc = false := by
    apply hl
    rw [hsnoc]
    exact List.getLast?_concat ini
  unfold jsTrim
  rw [dropWhile_all_append _ _ _ h1, List.cons_append,
    List.dropWhile_cons_of_neg (by simp [hc0]), ← List.cons_append, hsnoc]
  simp only [List.reverse_append, List.reverse_cons, List.reverse_nil, List.nil_append,
    List.singleton_append]
  rw [dropWhile_all_append _ _ _ (fun c hc => h2 c (List.mem_reverse.mp hc)),
    List.dropWhile_cons_of_neg (by simp [hlc])]
  simp

/-- `parseFloat` succeeds on a whitespace-padded signed decimal token. -/
theorem jsParseFloat_token (ws1 sgnL ds fr ws2 : List Char)
    (hsgn : sgnL = [] ∨ sgnL = ['-'])
    (h1 : ∀ c ∈ ws1, isJsWhitespace c = true)
    (hds : ds ≠ []) (hdsd : ∀ c ∈ ds, isDigitChar c = true)
    (hws2 : ∀ c ∈ ws2, isJsWhitespace c = true)
    (hfr : fr = [] ∨ ∃ fs, fr = '.' :: fs) :
    (jsParseFloat (ws1 ++ (sgnL ++ (ds ++ (fr ++ ws2))))).isSome = true := by
  obtain ⟨d0, ds', rfl⟩ := List.exists_cons_of_ne_nil hds
  have hd0 := hdsd d0 (by simp)
  have hds' : ∀ c ∈ ds', isDigitChar c = true := fun c hc => hdsd c (by simp [hc])
  have htail : List.takeWhile isDigitChar (fr ++ ws2) = [] := by
    rcases hfr with rfl | ⟨fs, rfl⟩
    · rw [List.nil_append]
      cases ws2 with
      | nil => rfl
      | cons w t => exact List.takeWhile_cons_of_neg (by simp [ws_not_digit (hws2 w (by simp))])
    · exact List.takeWhile_cons_of_neg (by decide)
  have htw : List.takeWhile isDigitChar (d0 :: (ds' ++ (fr ++ ws2))) = d0 :: ds' := by
    rw [List.takeWhile_cons_of_pos hd0, takeWhile_all_append _ _ _ hds', htail]
    simp
  rcases hsgn with rfl | rfl
  · have hdw : List.dropWhile isJsWhitespace (ws1 ++ ([] ++ (d0 :: ds' ++ (fr ++ ws2)))) =
        d0 :: (ds' ++ (fr ++ ws2)) := by
      rw [List.nil_append, dropWhile_all_append _ _ _ h1, List.cons_append,
        List.dropWhile_cons_of_neg (by simp [digit_not_ws hd0])]
    have hsplit : splitSignPM (d0 :: (ds' ++ (fr ++ ws2))) =
        (false, d0 :: (ds' ++ (fr ++ ws2))) := by
      simp only [splitSignPM]
      rw [if_neg (digit_ne_dash hd0), if_neg (digit_ne_plus hd0)]
    simp only [jsParseFloat, hdw, hsplit, htw, List.isEmpty_cons, Bool.false_and,
      Bool.false_eq_true, if_false, Option.isSome_some]
  · have hdw : List.dropWhile isJsWhitespace (ws1 ++ (['-'] ++ (d0 :: ds' ++ (fr ++ ws2)))) =
        '-' :: (d0 :: (ds' ++ (fr ++ ws2))) := by
      rw [dropWhile_all_append _ _ _ h1, List.singleton_append, List.cons_append,
        List.dropWhile_cons_of_neg (by decide)]
    have hsplit : splitSignPM ('-' :: (d0 :: (ds' ++ (fr ++ ws2)))) =
        (true, d0 :: (ds' ++ (fr ++ ws2))) := by
      simp [splitSignPM]
    simp only [jsParseFloat, hdw, hsplit, htw, List.isEmpty_cons, Bool.false_and,
      Bool.false_eq_true, if_false, Option.isSome_some]

/-- The clean-single-token regex accepts a signed decimal token. -/
theorem cleanTokTest_token (sgnL ds fr : List Char)
    (hsgn : sgnL = [] ∨ sgnL = ['-'])
    (hds : ds ≠ []) (hdsd : ∀ c ∈ ds, isDigitChar c = true)
    (hfr : fr = [] ∨ ∃ sep fs, fr = sep :: fs ∧ (sep = '.' ∨ sep = ',') ∧ fs ≠ [] ∧
      ∀ c ∈ fs, isDigitChar c = true) :
    cleanTokTest (sgnL ++ (ds ++ fr)) = true := by
  obtain ⟨d0, ds', rfl⟩ := List.exists_cons_of_ne_nil hds
  have hd0 := hdsd d0 (by simp)
  have hds' : ∀ c ∈ ds', isDigitChar c = true := fun c hc => hdsd c (by simp [hc])
  have hdwfr : List.dropWhile isDigitChar (d0 :: (ds' ++ fr)) = fr := by
    rw [List.dropWhile_cons_of_pos hd0, dropWhile_all_append _ _ _ hds']
    rcases hfr with rfl | ⟨sep, fs, rfl, hsep, hfs, hfsd⟩
    · rfl
    · exact List.dropWhile_cons_of_neg (by rcases hsep with rfl | rfl <;> decide)
  have hsplit : (splitSign (sgnL ++ (d0 :: ds' ++ fr))).2 = d0 :: (ds' ++ fr) := by
    rcases hsgn with rfl | rfl
    · simp only [List.nil_append, List.cons_append, splitSign]
      rw [if_neg (digit_ne_dash hd0)]
    · simp [splitSign]
  simp only [cleanTokTest, hsplit, hdwfr]
  rcases hfr with rfl | ⟨sep, fs, rfl, hsep, hfs, hfsd⟩
  · rfl
  · obtain ⟨f0, fs', rfl⟩ := List.exists_cons_of_ne_nil hfs
    have hf0 := hfsd f0 (by simp)
    have hfs' : ∀ c ∈ fs', isDigitChar c = true := fun c hc => hfsd c (by simp [hc])
    have hcond : (decide (sep = '.') || decide (sep = ',')) = true := by
      rcases hsep with rfl | rfl <;> rfl
    have htwfs : List.takeWhile isDigitChar (f0 :: fs') = f0 :: fs' := by
      rw [List.takeWhile_cons_of_pos hf0, takeWhile_all _ _ hfs']
    have hdwfs : List.dropWhile isDigitChar (f0 :: fs') = [] := by
      rw [List.dropWhile_cons_of_pos hf0, dropWhile_all _ _ hfs']
    simp [hcond, htwfs, hdwfs]


/-- C8: in a linear tolerance-resolved row, a non-merged target cell whose
string value is a single numeric token (optional sign, digits, optional
decimal separator with digits, optional surrounding whitespace) is handled by
the single-value case: it is written back as a numeric cell value with the
forced two-decimal display format `0.00`, not as a rewritten string. -/
theorem c8_clean_single_value (rand : ℕ → ℚ) (mn mx : ℚ) (cell : Cell) (st : PState)
    (s : String) (hm : cell.isMergedFollower = false)
    (hv : getCellValue cell.value = some (Sum.inr s))
    (hs : specCleanSingleToken s) :
    ∃ nv st2, processCellValue rand false mn mx cell st =
      ({ cell with value := RawValue.num nv, numFmt := some "0.00" }, st2) := by
  obtain ⟨ws1, sgn, ds, fr, ws2, hdata, hds, hdsd, hw1, hw2, hfr⟩ := hs
  have hsgnd : (if sgn then ['-'] else []) = [] ∨ (if sgn then ['-'] else []) = ['-'] := by
    cases sgn <;> simp
  have hfr' : fr = [] ∨ ∃ sep fs, fr = sep :: fs ∧ (sep = '.' ∨ sep = ',') ∧ fs ≠ [] ∧
      ∀ c ∈ fs, isDigitChar c = true := hfr
  obtain ⟨d0, ds', hdscons⟩ := List.exists_cons_of_ne_nil hds
  have hcne : (if sgn then ['-'] else []) ++ (ds ++ fr) ≠ [] := by
    intro hc
    exact hds (List.append_eq_nil.mp (List.append_eq_nil.mp hc).2).1
  have hshape : s.data = ws1 ++ (((if sgn then ['-'] else []) ++ (ds ++ fr)) ++ ws2) := by
    rw [hdata]
    simp [List.append_assoc]
  have hh : ∀ c, ((if sgn then ['-'] else []) ++ (ds ++ fr)).head? = some c →
      isJsWhitespace c = false := by
    intro c hc
    rcases hsgnd with he | he
    · rw [he, List.nil_append, hdscons, List.cons_append, List.head?_cons] at hc
      cases hc
      exact digit_not_ws (hdsd d0 (by simp [hdscons]))
    · rw [he, List.singleton_append, List.head?_cons] at hc
      cases hc
      decide
  have hl : ∀ c, ((if sgn then ['-'] else []) ++ (ds ++ fr)).getLast? = some c →
      isJsWhitespace c = false := by
    intro c hc
    rcases hfr' with rfl | ⟨sep, fs, rfl, hsep, hfs, hfsd⟩
    · obtain ⟨ini, lc, hsnoc⟩ : ∃ ini lc, ds = ini ++ [lc] :=
        ⟨ds.dropLast, ds.getLast hds, (List.dropLast_append_getLast hds).symm⟩
      rw [List.append_nil, hsnoc, ← List.append_assoc, List.getLast?_concat] at hc
      cases hc
      exact digit_not_ws (hdsd _ (by simp [hsnoc]))
    · obtain ⟨fini, flc, hsnoc⟩ : ∃ fini flc, fs = fini ++ [flc] :=
        ⟨fs.dropLast, fs.getLast hfs, (List.dropLast_append_getLast hfs).symm⟩
      rw [hsnoc] at hc
      rw [show (if sgn then ['-'] else []) ++ (ds ++ (sep :: (fini ++ [flc]))) =
        ((if sgn then ['-'] else []) ++ (ds ++ (sep :: fini))) ++ [flc] by
          simp [List.append_assoc]] at hc
      rw [List.getLast?_concat] at hc
      cases hc
      exact digit_not_ws (hfsd _ (by simp [hsnoc]))
  have htrim : jsTrim s.data = (if sgn then ['-'] else []) ++ (ds ++ fr) := by
    rw [hshape]
    exact jsTrim_decomp ws1 ws2 _ hw1 hw2 hcne hh hl
  have hclean : cleanTokTest (jsTrim s.data) = true := by
    rw [htrim]
    exact cleanTokTest_token _ ds fr hsgnd hds hdsd hfr'
  have hsgncomma : ∀ c ∈ (if sgn then ['-'] else []), ¬ (c = ',') := by
    rcases hsgnd with he | he <;> rw [he]
    · simp
    · intro c hc
      simp only [List.mem_singleton] at hc
      subst hc
      decide
  have hwcomma1 : ∀ c ∈ ws1, ¬ (c = ',') := fun c hc => ws_ne_comma (hw1 c hc)
  have hwcomma2 : ∀ c ∈ ws2, ¬ (c = ',') := fun c hc => ws_ne_comma (hw2 c hc)
  have hdcomma : ∀ c ∈ ds, ¬ (c = ',') := fun c hc => digit_ne_comma (hdsd c hc)
  have hpf : (parseNumber (Sum.inr s)).isSome = true := by
    have hempty : (jsTrim s.data).isEmpty = false := by
      rw [htrim]
      cases h : ((if sgn then ['-'] else []) ++ (ds ++ fr)) with
      | nil => exact absurd h hcne
      | cons x t => rfl
    simp only [parseNumber, hempty, Bool.false_eq_true, if_false]
    rcases hfr' with rfl | ⟨sep, fs, rfl, hsep, hfs, hfsd⟩
    · have hrep : replaceFirst ',' '.' s.data = s.data := by
        apply replaceFirst_not_mem
        rw [hdata]
        exact List.forall_mem_append.mpr ⟨hwcomma1, List.forall_mem_append.mpr
          ⟨hsgncomma, List.forall_mem_append.mpr ⟨hdcomma,
            List.forall_mem_append.mpr ⟨by simp, hwcomma2⟩⟩⟩⟩
      rw [hrep, hdata]
      rw [show ds ++ ([] ++ ws2) = ds ++ ([] ++ ws2) from rfl]
      exact jsParseFloat_token ws1 _ ds [] ws2 hsgnd hw1 hds hdsd hw2 (Or.inl rfl)
    · rcases hsep with rfl | rfl
      · have hfcomma : ∀ c ∈ ('.' :: fs), ¬ (c = ',') := by
          intro c hc
          simp only [List.mem_cons] at hc
          rcases hc with rfl | hc
          · decide
          · exact digit_ne_comma (hfsd c hc)
        have hrep : replaceFirst ',' '.' s.data = s.data := by
          apply replaceFirst_not_mem
          rw [hdata]
          exact List.forall_mem_append.mpr ⟨hwcomma1, List.forall_mem_append.mpr
            ⟨hsgncomma, List.forall_mem_append.mpr ⟨hdcomma,
              List.forall_mem_append.mpr ⟨hfcomma, hwcomma2⟩⟩⟩⟩
        rw [hrep, hdata]
        exact jsParseFloat_token ws1 _ ds ('.' :: fs) ws2 hsgnd hw1 hds hdsd hw2
          (Or.inr ⟨fs, rfl⟩)
      · have hshape2 : s.data = (ws1 ++ ((if sgn then ['-'] else []) ++ ds)) ++
            (',' :: (fs ++ ws2)) := by
          rw [hdata]
          simp [List.append_assoc]
        have hrep : replaceFirst ',' '.' s.data =
            (ws1 ++ ((if sgn then ['-'] else []) ++ ds)) ++ ('.' :: (fs ++ ws2)) := by
          rw [hshape2]
          apply replaceFirst_append
          exact List.forall_mem_append.mpr ⟨hwcomma1,
            List.forall_mem_append.mpr ⟨hsgncomma, hdcomma⟩⟩
        rw [hrep]
        rw [show (ws1 ++ ((if sgn then ['-'] else []) ++ ds)) ++ ('.' :: (fs ++ ws2)) =
          ws1 ++ ((if sgn then ['-'] else []) ++ (ds ++ (('.' :: fs) ++ ws2))) by
            simp [List.append_assoc]]
        exact jsParseFloat_token ws1 _ ds ('.' :: fs) ws2 hsgnd hw1 hds hdsd hw2
          (Or.inr ⟨fs, rfl⟩)
  obtain ⟨q, hq⟩ := Option.isSome_iff_exists.mp hpf
  have hsne : ¬ ((Sum.inr s : ℚ ⊕ String) = Sum.inr "") := by
    intro he
    simp only [Sum.inr.injEq] at he
    subst he
    have hnil : ("" : String).data = [] := rfl
    rw [hnil] at hdata
    exact hds (List.append_eq_nil.mp
      (List.append_eq_nil.mp (List.append_eq_nil.mp hdata.symm).2).2).1
  unfold processCellValue
  rw [if_neg (by simp [hm]), hv]
  dsimp only
  rw [if_neg hsne]
  simp only [hq, hclean, Bool.false_eq_true, if_false, Bool.false_or, Bool.false_and,
    Bool.or_false, eq_self_iff_true, if_true]
  unfold caseABody writeSingle
  split <;> exact ⟨_, _, rfl⟩

/-- Witness for `c8_clean_single_value` on the cell text consisting of a
space, `12.5`, and a space, inside the window `[0, 10]`. -/
theorem c8_clean_single_value_witness :
    ∃ nv st2, processCellValue (fun _ => 0) false 0 10 ⟨RawValue.str " 12.5 ", none, false⟩
      ⟨0, ⟨0, 0, 0, 0⟩⟩ =
      ({ value := RawValue.num nv, numFmt := some "0.00", isMergedFollower := false }, st2) :=
  c8_clean_single_value (fun _ => 0) 0 10 ⟨RawValue.str " 12.5 ", none, false⟩
    ⟨0, ⟨0, 0, 0, 0⟩⟩ " 12.5 " rfl rfl
    ⟨[' '], false, ['1', '2'], '.' :: ['5'], [' '], by decide, by decide, by decide,
      by decide, by decide, Or.inr ⟨'.', ['5'], rfl, Or.inl rfl, by decide, by decide⟩⟩
